import Mathlib

/-!
Verification of the Exelixi Mesos scheduler/executor (`src/sched.py`).

The development shallowly embeds the scheduler state machine
(`MesosScheduler`), the executor callbacks (`MesosExecutor`), and the JSON
wire format used between them (Python's `json.dumps` / `json.loads`,
restricted to the strings, naturals, arrays and objects that the program
exchanges).  Components imported from `service.py` (which is not among the
sources) — `ExecutorInfo`, `Worker.DEFAULT_PORT`, the telemetry producer —
are modelled from the specification and marked as such.
-/

/-! ## JSON values and serialization (model of `json.dumps` / `json.loads`) -/

/-- JSON values as exchanged by the program: strings, natural numbers,
arrays and objects. -/
inductive JValue where
  | str (s : String)
  | num (n : Nat)
  | arr (elems : List JValue)
  | obj (fields : List (String × JValue))

/-- Characters escaped by the serializer: the quote and the backslash. -/
def needsEsc (c : Char) : Bool := c == '"' || c == '\\'

/-- Escape one character of a serialized JSON string. -/
def escChar (c : Char) : List Char := if needsEsc c then ['\\', c] else [c]

/-- Serialize a string with surrounding quotes, escaping as `json.dumps` does. -/
def dumpStrChars (s : String) : List Char :=
  '"' :: (s.data.flatMap escChar) ++ ['"']

/-- Big-endian decimal digits of `n`, with fuel (`fuel ≥ n` suffices). -/
def natCharsAux : Nat → Nat → List Char
  | 0, _ => []
  | _, 0 => []
  | f + 1, n => natCharsAux f (n / 10) ++ [Nat.digitChar (n % 10)]

/-- Decimal rendering of a natural number (Python's `str` / `json.dumps`). -/
def natChars (n : Nat) : List Char :=
  if n = 0 then ['0'] else natCharsAux n n

/-- Decimal rendering as a `String`; the model of Python's `str(n)`. -/
def natStr (n : Nat) : String := String.mk (natChars n)

/-- Opening brace character. -/
def obraceC : Char := Char.ofNat 123

/-- Closing brace character. -/
def cbraceC : Char := Char.ofNat 125

mutual

/-- Model of `json.dumps` with the default separators (`", "` and `": "`). -/
def dumpsChars : JValue → List Char
  | .str s => dumpStrChars s
  | .num n => natChars n
  | .arr es => '[' :: dumpsList es ++ [']']
  | .obj fs => obraceC :: dumpsFields fs ++ [cbraceC]

/-- Array elements, separated by `", "`. -/
def dumpsList : List JValue → List Char
  | [] => []
  | [v] => dumpsChars v
  | v :: v' :: vs => dumpsChars v ++ ',' :: ' ' :: dumpsList (v' :: vs)

/-- Object fields, `"key": value`, separated by `", "`. -/
def dumpsFields : List (String × JValue) → List Char
  | [] => []
  | [(k, v)] => dumpStrChars k ++ ':' :: ' ' :: dumpsChars v
  | (k, v) :: f' :: fs =>
    dumpStrChars k ++ ':' :: ' ' :: dumpsChars v ++ ',' :: ' ' :: dumpsFields (f' :: fs)

end

/-- Model of `json.dumps` producing a `String`. -/
def dumps (v : JValue) : String := String.mk (dumpsChars v)

/-- Indentation for `json.dumps(..., indent=4)`. -/
def indentChars (k : Nat) : List Char := List.replicate (4 * k) ' '

mutual

/-- Model of `json.dumps(..., indent=4)` at nesting level `k`. -/
def dumpsIndV (k : Nat) : JValue → List Char
  | .str s => dumpStrChars s
  | .num n => natChars n
  | .arr [] => ['[', ']']
  | .arr (v :: vs) =>
    '[' :: '\n' :: indentChars (k + 1) ++ dumpsIndList k (v :: vs)
      ++ '\n' :: indentChars k ++ [']']
  | .obj [] => [obraceC, cbraceC]
  | .obj (f :: fs) =>
    obraceC :: '\n' :: indentChars (k + 1) ++ dumpsIndFields k (f :: fs)
      ++ '\n' :: indentChars k ++ [cbraceC]

/-- Indented array elements. -/
def dumpsIndList (k : Nat) : List JValue → List Char
  | [] => []
  | [v] => dumpsIndV (k + 1) v
  | v :: v' :: vs =>
    dumpsIndV (k + 1) v ++ ',' :: '\n' :: indentChars (k + 1) ++ dumpsIndList k (v' :: vs)

/-- Indented object fields. -/
def dumpsIndFields (k : Nat) : List (String × JValue) → List Char
  | [] => []
  | [(key, v)] => dumpStrChars key ++ ':' :: ' ' :: dumpsIndV (k + 1) v
  | (key, v) :: f' :: fs =>
    dumpStrChars key ++ ':' :: ' ' :: dumpsIndV (k + 1) v
      ++ ',' :: '\n' :: indentChars (k + 1) ++ dumpsIndFields k (f' :: fs)

end

/-- Model of `json.dumps(v, indent=4)` producing a `String`. -/
def dumpsInd (v : JValue) : String := String.mk (dumpsIndV 0 v)

/-! ## JSON parsing (model of `json.loads`) -/

/-- JSON whitespace. -/
def isWsC (c : Char) : Bool := c == ' ' || c == '\n' || c == '\t' || c == '\r'

/-- Skip leading whitespace. -/
def skipWs (cs : List Char) : List Char := cs.dropWhile isWsC

/-- Decimal digit characters. -/
def isDigitC (c : Char) : Bool := 48 ≤ c.toNat && c.toNat ≤ 57

/-- Undo a two-character escape sequence. -/
def unescChar (c : Char) : Char :=
  if c = 'n' then '\n' else if c = 't' then '\t' else if c = 'r' then '\r' else c

/-- Parse the body of a JSON string after the opening quote.  The flag
records that the previous character was a backslash. -/
def parseStrBody : Bool → List Char → List Char → Option (String × List Char)
  | _, _, [] => none
  | true, acc, c :: r => parseStrBody false (unescChar c :: acc) r
  | false, acc, c :: r =>
    if c = '"' then some (String.mk acc.reverse, r)
    else if c = '\\' then parseStrBody true acc r
    else parseStrBody false (c :: acc) r

/-- Parse a decimal natural from the front of the input. -/
def parseNatC (cs : List Char) : Option (Nat × List Char) :=
  let ds := cs.takeWhile isDigitC
  if ds.isEmpty then none
  else some (ds.foldl (fun a c => 10 * a + (c.toNat - 48)) 0, cs.dropWhile isDigitC)

/-- A pending parse obligation: a value, the elements of an array being
accumulated, or the fields of an object being accumulated. -/
inductive PJob where
  | val (cs : List Char)
  | elems (cs : List Char) (acc : List JValue)
  | fields (cs : List Char) (acc : List (String × JValue))

/-- Fuel-driven JSON parser; one fuel unit is spent per structural step. -/
def parseF : Nat → PJob → Option (JValue × List Char)
  | 0, _ => none
  | f + 1, .val cs =>
    match skipWs cs with
    | [] => none
    | c :: r =>
      if c = '"' then
        match parseStrBody false [] r with
        | none => none
        | some (s, r2) => some (.str s, r2)
      else if c = '[' then
        match skipWs r with
        | [] => none
        | c2 :: r2 =>
          if c2 = ']' then some (.arr [], r2)
          else parseF f (.elems (c2 :: r2) [])
      else if c = obraceC then
        match skipWs r with
        | [] => none
        | c2 :: r2 =>
          if c2 = cbraceC then some (.obj [], r2)
          else parseF f (.fields (c2 :: r2) [])
      else if isDigitC c then
        match parseNatC (c :: r) with
        | none => none
        | some (n, r2) => some (.num n, r2)
      else none
  | f + 1, .elems cs acc =>
    match parseF f (.val cs) with
    | none => none
    | some (v, r) =>
      match skipWs r with
      | [] => none
      | c :: r2 =>
        if c = ',' then parseF f (.elems r2 (acc ++ [v]))
        else if c = ']' then some (.arr (acc ++ [v]), r2)
        else none
  | f + 1, .fields cs acc =>
    match skipWs cs with
    | [] => none
    | c :: r =>
      if c = '"' then
        match parseStrBody false [] r with
        | none => none
        | some (k, r2) =>
          match skipWs r2 with
          | [] => none
          | c2 :: r3 =>
            if c2 = ':' then
              match parseF f (.val r3) with
              | none => none
              | some (v, r4) =>
                match skipWs r4 with
                | [] => none
                | c3 :: r5 =>
                  if c3 = ',' then parseF f (.fields r5 (acc ++ [(k, v)]))
                  else if c3 = cbraceC then some (.obj (acc ++ [(k, v)]), r5)
                  else none
            else none
      else none

/-- Model of `json.loads`: parse a complete JSON document, rejecting
trailing garbage. -/
def loads (s : String) : Option JValue :=
  match parseF (s.data.length + 1) (.val s.data) with
  | none => none
  | some (v, r) => if skipWs r = [] then some v else none

/-! ## Data model of the scheduler (`src/sched.py`) -/

/-- A resource offer as consumed by `MesosScheduler.resourceOffers`:
`offer.id.value`, `offer.hostname`, `offer.slave_id.value`. -/
structure Offer where
  offer_id : String
  hostname : String
  slave_id : String
deriving DecidableEq, Repr

/-- The scheduler's static configuration, captured by
`MesosScheduler.__init__` (the constructor arguments) together with the
generated executor descriptor id from `start_framework`. -/
structure Config where
  exe_path : String
  n_exe : Nat
  ff_name : String
  pfx : String
  cpu_alloc : Rat
  mem_alloc : Rat
  executor_id : String
deriving DecidableEq, Repr

/-- A `mesos_pb2.TaskInfo` as built in `resourceOffers`: task id, slave id,
name, the merged executor descriptor's id, and the cpu/mem resources. -/
structure TaskInfo where
  task_id : String
  slave_id : String
  name : String
  executor_id : String
  resources : List (String × Rat)
deriving DecidableEq, Repr

/-- Modelled from the spec: `service.ExecutorInfo` (the ExecutorRecord) is
imported from a module that is not among the sources.  Per the spec it
stores the host, the originating offer's slave identity, the assigned task,
and the IP address and service port populated once discovery telemetry
arrives. -/
structure ExecutorInfo where
  hostname : String
  slave_id : String
  task_id : String
  ip_addr : Option JValue := none
  port : Option Nat := none

namespace Worker

/-- Modelled from the spec: `service.Worker.DEFAULT_PORT`, the fixed
well-known worker service port.  The defining module is not among the
sources, so a fixed representative numeral stands for its value. -/
def DEFAULT_PORT : Nat := 9311

end Worker

/-- Modelled from the spec: `ExecutorInfo(offer, task)` snapshots the
accepted offer and the assigned task; IP and port are not yet populated. -/
def ExecutorInfo.ofOfferTask (o : Offer) (t : TaskInfo) : ExecutorInfo :=
  { hostname := o.hostname, slave_id := o.slave_id, task_id := t.task_id }

/-- Modelled from the spec: the derived service URI of an ExecutorRecord
(`get_exe_uri`), built from the discovered IP address and the service
port. -/
def ExecutorInfo.get_exe_uri (e : ExecutorInfo) : String :=
  (match e.ip_addr with | some (.str s) => s | _ => "") ++ ":" ++
    natStr (e.port.getD 0)

/-- The mutable state of a `MesosScheduler` instance: `taskData` maps a
task id to the `(slave_id, executor_id)` pair recorded at launch; the four
counters; and `_executors`, the insertion-ordered dictionary from hostname
to ExecutorRecord. -/
structure SchedState where
  taskData : List (String × String × String)
  tasksLaunched : Nat
  tasksFinished : Nat
  messagesSent : Nat
  messagesReceived : Nat
  executors : List (String × ExecutorInfo)

/-- The state after `MesosScheduler.__init__`. -/
def initState : SchedState :=
  { taskData := [], tasksLaunched := 0, tasksFinished := 0,
    messagesSent := 0, messagesReceived := 0, executors := [] }

/-- Key membership in an insertion-ordered dictionary (`k in d`). -/
def hasKey (l : List (String × α)) (k : String) : Bool :=
  l.any (fun kv => kv.1 == k)

/-- Assignment `d[k] = v` on an insertion-ordered dictionary: overwrite in
place if the key exists, append otherwise. -/
def dictInsert (l : List (String × α)) (k : String) (v : α) : List (String × α) :=
  if hasKey l k then l.map (fun kv => if kv.1 == k then (k, v) else kv)
  else l ++ [(k, v)]

/-- Lifecycle states delivered by `statusUpdate` (`mesos_pb2.TaskState`). -/
inductive TaskState where
  | TASK_STAGING | TASK_STARTING | TASK_RUNNING | TASK_FINISHED
  | TASK_FAILED | TASK_KILLED | TASK_LOST
deriving DecidableEq, Repr

/-- A `mesos_pb2.TaskStatus` as consumed by `statusUpdate`. -/
structure StatusUpdate where
  task_id : String
  state : TaskState
  data : String
deriving DecidableEq, Repr

/-- Outbound driver calls made by the scheduler's handlers.  `orchestrate`
stands for the external `Framework(...).orchestrate()` hand-off, recording
the worker-group name, the routing prefix and the executor URI list. -/
inductive DriverCall where
  | launchTasks (offerId : String) (tasks : List TaskInfo)
  | sendFrameworkMessage (executorId : String) (slaveId : String) (message : String)
  | orchestrate (ff_name : String) (pfx : String) (exe_list : List String)
  | stop
deriving DecidableEq, Repr

/-- The `mesos_pb2.TaskInfo` constructed for an accepted offer. -/
def mkTask (cfg : Config) (tid : Nat) (o : Offer) : TaskInfo :=
  { task_id := natStr tid, slave_id := o.slave_id,
    name := "task " ++ natStr tid, executor_id := cfg.executor_id,
    resources := [("cpus", cfg.cpu_alloc), ("mem", cfg.mem_alloc)] }

/-- One iteration of the `for offer in offers` loop of `resourceOffers`:
accept when `tasksLaunched < n_exe` and the hostname has no ExecutorRecord,
decline otherwise; returns the task list passed to `launchTasks`. -/
def processOffer (cfg : Config) (s : SchedState) (o : Offer) :
    SchedState × List TaskInfo :=
  if s.tasksLaunched < cfg.n_exe ∧ hasKey s.executors o.hostname = false then
    let tid := s.tasksLaunched
    let task := mkTask cfg tid o
    ({ s with
        tasksLaunched := tid + 1,
        taskData := dictInsert s.taskData task.task_id (o.slave_id, cfg.executor_id),
        executors := dictInsert s.executors o.hostname (.ofOfferTask o task) },
     [task])
  else (s, [])

/-- `MesosScheduler.resourceOffers`: process the offers in delivery order,
issuing one `driver.launchTasks(offer.id, tasks)` call per offer. -/
def resourceOffers (cfg : Config) (s : SchedState) :
    List Offer → SchedState × List DriverCall
  | [] => (s, [])
  | o :: os =>
    let p := processOffer cfg s o
    let rest := resourceOffers cfg p.1 os
    (rest.1, DriverCall.launchTasks o.offer_id p.2 :: rest.2)

/-- `MesosScheduler.lookup_executor`: linear scan of the stored
ExecutorRecords, returning the first whose `slave_id` matches; the
`executor_id` argument is not consulted.  Falls through to `None` when no
record matches. -/
def MesosScheduler.lookup_executor (s : SchedState) (slave_id : String)
    (_executor_id : String) : Option ExecutorInfo :=
  (s.executors.map Prod.snd).find? (fun exe => exe.slave_id == slave_id)

/-- In-place mutation of the record returned by `lookup_executor`: update
the first stored record whose `slave_id` matches. -/
def updateFirstExe : List (String × ExecutorInfo) → String →
    (ExecutorInfo → ExecutorInfo) → List (String × ExecutorInfo)
  | [], _, _ => []
  | kv :: t, sid, f =>
    if kv.2.slave_id == sid then (kv.1, f kv.2) :: t
    else kv :: updateFirstExe t sid f

/-- The launch-service instruction of `statusUpdate`:
`str(dumps([self._exe_path, "-p", exe.port]))`. -/
def launchServiceMessage (exePath : String) (port : Nat) : String :=
  dumps (.arr [.str exePath, .str "-p", .num port])

/-- `MesosScheduler.statusUpdate`.  Only `TASK_FINISHED` is actionable; an
exception escaping the handler (missing `taskData` entry, unparsable
telemetry, no matching ExecutorRecord, missing `"ip_addr"` key) is modelled
by `Except.error` carrying the state at the raise point — counters already
incremented stay incremented. -/
def statusUpdate (cfg : Config) (s : SchedState) (u : StatusUpdate) :
    Except SchedState (SchedState × List DriverCall) :=
  if u.state = TaskState.TASK_FINISHED then
    let s1 := { s with tasksFinished := s.tasksFinished + 1 }
    match s1.taskData.find? (fun kv => kv.1 == u.task_id) with
    | none => .error s1
    | some (_, sid, eid) =>
      let s2 := { s1 with messagesSent := s1.messagesSent + 1 }
      match loads u.data with
      | none => .error s2
      | some telemetry =>
        match MesosScheduler.lookup_executor s2 sid eid with
        | none => .error s2
        | some _ =>
          match telemetry with
          | .obj fields =>
            match fields.find? (fun kv => kv.1 == "ip_addr") with
            | none => .error s2
            | some (_, ip) =>
              let s3 := { s2 with
                executors := updateFirstExe s2.executors sid
                  (fun e =>
                    { e with ip_addr := some ip, port := some Worker.DEFAULT_PORT }) }
              .ok (s3, [DriverCall.sendFrameworkMessage eid sid
                          (launchServiceMessage cfg.exe_path Worker.DEFAULT_PORT)])
          | _ => .error s2
  else
    .ok (s, [])

/-- Outcome of `MesosScheduler.frameworkMessage`: either `sys.exit(1)` with
the state at exit, or a normal return with the emitted driver calls. -/
inductive FMOutcome where
  | exited (code : Nat) (s : SchedState)
  | normal (s : SchedState) (acts : List DriverCall)

/-- `MesosScheduler.frameworkMessage`: count the acknowledgement; at the
`messagesReceived == n_exe` checkpoint either fail fast on a sent/received
mismatch or orchestrate and stop the driver; below or beyond the
checkpoint, return normally. -/
def frameworkMessage (cfg : Config) (s : SchedState)
    (_executorId _slaveId _message : String) : FMOutcome :=
  let s1 := { s with messagesReceived := s.messagesReceived + 1 }
  if s1.messagesReceived = cfg.n_exe then
    if s1.messagesReceived ≠ s1.messagesSent then
      .exited 1 s1
    else
      .normal s1 [DriverCall.orchestrate cfg.ff_name cfg.pfx
                    (s1.executors.map (fun kv => kv.2.get_exe_uri)),
                  DriverCall.stop]
  else
    .normal s1 []

/-! ## `start_framework` (environment handling and driver construction) -/

/-- Python truthiness of `os.getenv(k)`: set and non-empty. -/
def truthyEnv (env : List (String × String)) (k : String) : Bool :=
  match env.find? (fun kv => kv.1 == k) with
  | none => false
  | some kv => kv.2 != ""

/-- `os.getenv(k)` over the modelled environment. -/
def getenv (env : List (String × String)) (k : String) : Option String :=
  (env.find? (fun kv => kv.1 == k)).map Prod.snd

/-- What `start_framework` hands to the driver constructor: the framework
descriptor's checkpoint flag and, when authentication is enabled, the
credential's principal and secret. -/
structure DriverSetup where
  checkpoint : Bool
  credential : Option (String × String)
deriving DecidableEq, Repr

/-- `MesosScheduler.start_framework`, restricted to its environment-driven
control flow: `sys.exit(1)` (modelled by `Except.error 1`) when
authentication is enabled but the principal or the secret is missing, a
credentialled driver when both are present, a credential-free driver when
authentication is disabled. -/
def start_framework (env : List (String × String)) : Except Nat DriverSetup :=
  let checkpoint := truthyEnv env "MESOS_CHECKPOINT"
  if truthyEnv env "MESOS_AUTHENTICATE" then
    if !truthyEnv env "DEFAULT_PRINCIPAL" then .error 1
    else if !truthyEnv env "DEFAULT_SECRET" then .error 1
    else .ok { checkpoint := checkpoint,
               credential := some ((getenv env "DEFAULT_PRINCIPAL").getD "",
                                   (getenv env "DEFAULT_SECRET").getD "") }
  else .ok { checkpoint := checkpoint, credential := none }

/-! ## The executor side (`MesosExecutor`) -/

/-- Outbound executor driver calls. -/
inductive ExecAction where
  | popen (args : JValue)
  | sendFrameworkMessage (message : String)

/-- Modelled from the spec: the telemetry payload produced by the discovery
task (`dumps(get_telemetry(), indent=4)`); `get_telemetry` is defined
outside the sources and reports at least the host's reachable IP
address. -/
def telemetryPayload (fields : List (String × JValue)) : String :=
  dumpsInd (.obj fields)

/-- `MesosExecutor.frameworkMessage`: deserialize the message, spawn it as
a child process (`subprocess.Popen(loads(message))`), and acknowledge with
the literal `"service launched"`; a deserialization failure escapes as an
exception (`none`). -/
def MesosExecutor.frameworkMessage (message : String) : Option (List ExecAction) :=
  match loads message with
  | none => none
  | some v => some [.popen v, .sendFrameworkMessage "service launched"]

/-! ## Basic lemmas about the JSON codec -/
theorem skipWs_nil : skipWs [] = [] := rfl

theorem skipWs_cons_not (c : Char) (l : List Char) (h : isWsC c = false) :
    skipWs (c :: l) = c :: l := by
  simp [skipWs, List.dropWhile, h]

theorem skipWs_cons_ws (c : Char) (l : List Char) (h : isWsC c = true) :
    skipWs (c :: l) = skipWs l := by
  simp [skipWs, List.dropWhile, h]

def goodChar (c : Char) : Prop := c ≠ '"' ∧ c ≠ '\\'

instance : DecidablePred goodChar := fun c => by unfold goodChar; infer_instance

theorem escChar_eq (c : Char) (h : goodChar c) : escChar c = [c] := by
  obtain ⟨h1, h2⟩ := h
  simp [escChar, needsEsc, h1, h2]

theorem flatMap_escChar (l : List Char) (h : ∀ c ∈ l, goodChar c) :
    l.flatMap escChar = l := by
  induction l with
  | nil => rfl
  | cons c t ih =>
    simp only [List.flatMap_cons]
    rw [escChar_eq c (h c (by simp)), ih (fun d hd => h d (by simp [hd]))]
    rfl

theorem dumpStrChars_eq (s : String) (h : ∀ c ∈ s.data, goodChar c) :
    dumpStrChars s = '"' :: s.data ++ ['"'] := by
  rw [dumpStrChars, flatMap_escChar s.data h]

theorem parseStrBody_spec (l : List Char) (h : ∀ c ∈ l, goodChar c) :
    ∀ (acc rest : List Char),
      parseStrBody false acc (l ++ '"' :: rest) =
        some (String.mk (acc.reverse ++ l), rest) := by
  induction l with
  | nil =>
    intro acc rest
    simp [parseStrBody]
  | cons c t ih =>
    intro acc rest
    obtain ⟨h1, h2⟩ := h c (by simp)
    simp only [List.cons_append, parseStrBody, if_neg h1, if_neg h2]
    show parseStrBody false (c :: acc) (t ++ '"' :: rest) = _
    rw [ih (fun d hd => h d (by simp [hd])) (c :: acc) rest]
    simp

theorem string_mk_data (s : String) : String.mk s.data = s := rfl

-- digit machinery
theorem digitChar_facts :
    ∀ d, d < 10 → (Nat.digitChar d).toNat = 48 + d ∧ isDigitC (Nat.digitChar d) = true ∧
      isWsC (Nat.digitChar d) = false ∧ Nat.digitChar d ≠ '"' ∧ Nat.digitChar d ≠ '[' ∧
      Nat.digitChar d ≠ obraceC := by decide

theorem natCharsAux_mem (f : Nat) :
    ∀ (n : Nat) (c : Char), c ∈ natCharsAux f n → ∃ d, d < 10 ∧ c = Nat.digitChar d := by
  induction f with
  | zero => intro n c hc; simp [natCharsAux] at hc
  | succ f ih =>
    intro n c hc
    match n with
    | 0 => simp [natCharsAux] at hc
    | m + 1 =>
      simp only [natCharsAux, List.mem_append, List.mem_singleton] at hc
      rcases hc with hc | hc
      · exact ih _ _ hc
      · exact ⟨(m + 1) % 10, Nat.mod_lt _ (by norm_num), hc⟩

theorem natCharsAux_foldl (f : Nat) :
    ∀ (n a : Nat), n ≤ f →
      (natCharsAux f n).foldl (fun a c => 10 * a + (c.toNat - 48)) a =
        a * 10 ^ (natCharsAux f n).length + n := by
  induction f with
  | zero =>
    intro n a hn
    interval_cases n
    simp [natCharsAux]
  | succ f ih =>
    intro n a hn
    match n with
    | 0 => simp [natCharsAux]
    | m + 1 =>
      have hq : (m + 1) / 10 ≤ f := by
        have := Nat.div_lt_self (Nat.succ_pos m) (by norm_num : (1:Nat) < 10)
        omega
      have hd := (digitChar_facts ((m + 1) % 10) (Nat.mod_lt _ (by norm_num))).1
      simp only [natCharsAux, List.foldl_append, List.foldl_cons, List.foldl_nil,
        List.length_append, List.length_singleton]
      rw [ih _ a hq, hd]
      have hmod := Nat.div_add_mod (m + 1) 10
      ring_nf
      omega

theorem natChars_val (n : Nat) :
    (natChars n).foldl (fun a c => 10 * a + (c.toNat - 48)) 0 = n := by
  by_cases h : n = 0
  · subst h; decide
  · rw [natChars, if_neg h]
    rw [natCharsAux_foldl n n 0 (le_refl n)]
    simp

theorem natChars_facts (n : Nat) :
    ∀ c ∈ natChars n, isDigitC c = true ∧ isWsC c = false ∧ c ≠ '"' ∧ c ≠ '[' ∧
      c ≠ obraceC := by
  intro c hc
  by_cases h : n = 0
  · subst h; simp [natChars] at hc; subst hc; decide
  · rw [natChars, if_neg h] at hc
    obtain ⟨d, hd, rfl⟩ := natCharsAux_mem n n c hc
    have := digitChar_facts d hd
    exact ⟨this.2.1, this.2.2.1, this.2.2.2.1, this.2.2.2.2.1, this.2.2.2.2.2⟩

theorem natChars_ne_nil (n : Nat) : natChars n ≠ [] := by
  by_cases h : n = 0
  · subst h; decide
  · rw [natChars, if_neg h]
    match n, h with
    | m + 1, _ => simp [natCharsAux]

theorem natStr_inj : Function.Injective natStr := by
  intro m n h
  have hd : natChars m = natChars n := by
    have := congrArg String.data h
    simpa [natStr] using this
  have := natChars_val m
  rw [hd, natChars_val n] at this
  omega

/-- The head of the remaining input, if any, is not a digit. -/
def noDigitHead : List Char → Prop
  | [] => True
  | c :: _ => isDigitC c = false

theorem takeWhile_append_all {p : Char → Bool} (l r : List Char)
    (hl : ∀ c ∈ l, p c = true) (hr : ∀ c r', r = c :: r' → p c = false) :
    (l ++ r).takeWhile p = l ∧ (l ++ r).dropWhile p = r := by
  induction l with
  | nil =>
    match r with
    | [] => simp
    | c :: r' =>
      have := hr c r' rfl
      simp [List.takeWhile, List.dropWhile, this]
  | cons c t ih =>
    have hc := hl c (by simp)
    have ⟨iht, ihd⟩ := ih (fun d hd => hl d (by simp [hd]))
    simp [List.takeWhile, List.dropWhile, hc, iht, ihd]

theorem parseNatC_spec (n : Nat) (rest : List Char) (h : noDigitHead rest) :
    parseNatC (natChars n ++ rest) = some (n, rest) := by
  have hall : ∀ c ∈ natChars n, isDigitC c = true := fun c hc => (natChars_facts n c hc).1
  have hrest : ∀ c r', rest = c :: r' → isDigitC c = false := by
    intro c r' hr; subst hr; exact h
  obtain ⟨ht, hd⟩ := takeWhile_append_all (natChars n) rest hall hrest
  rw [parseNatC]
  simp only [ht, hd]
  rw [if_neg (by simpa [List.isEmpty_iff] using natChars_ne_nil n)]
  rw [natChars_val n]

-- the concrete message shape
theorem launchMessage_data (path : String) (port : Nat)
    (h : ∀ c ∈ path.data, goodChar c) :
    (launchServiceMessage path port).data =
      '[' :: '"' :: path.data ++ '"' :: ',' :: ' ' :: '"' :: '-' :: 'p' :: '"' ::
        ',' :: ' ' :: natChars port ++ [']'] := by
  show (dumps (.arr [.str path, .str "-p", .num port])).data = _
  simp only [dumps, dumpsChars, dumpsList]
  rw [dumpStrChars_eq path h]
  show '[' :: (('"' :: path.data ++ ['"']) ++
      ',' :: ' ' :: (dumpStrChars "-p" ++ ',' :: ' ' :: natChars port)) ++ [']'] = _
  simp [dumpStrChars, escChar, needsEsc]

theorem parseF_val_str (f : Nat) (cs l rest : List Char)
    (hw : skipWs cs = '"' :: (l ++ '"' :: rest)) (hgood : ∀ c ∈ l, goodChar c) :
    parseF (f + 1) (.val cs) = some (.str (String.mk l), rest) := by
  simp only [parseF, hw]
  rw [parseStrBody_spec l hgood [] rest]
  simp

theorem parseF_val_num (f : Nat) (cs rest : List Char) (n : Nat)
    (hw : skipWs cs = natChars n ++ rest) (hr : noDigitHead rest) :
    parseF (f + 1) (.val cs) = some (.num n, rest) := by
  obtain ⟨dc, dt, hdig⟩ := List.exists_cons_of_ne_nil (natChars_ne_nil n)
  have hdc := natChars_facts n dc (by rw [hdig]; simp)
  simp only [parseF, hw, hdig, List.cons_append]
  rw [if_neg hdc.2.2.1, if_neg hdc.2.2.2.1, if_neg hdc.2.2.2.2, if_pos hdc.1]
  have := parseNatC_spec n rest hr
  rw [hdig, List.cons_append] at this
  simp only [this]

theorem parseF_val_arr (f : Nat) (cs r r2 : List Char) (c2 : Char)
    (h1 : skipWs cs = '[' :: r) (h2 : skipWs r = c2 :: r2) (h3 : c2 ≠ ']') :
    parseF (f + 1) (.val cs) = parseF f (.elems (c2 :: r2) []) := by
  simp only [parseF, h1, h2]
  rw [if_neg (by decide : ¬('[' : Char) = '"')]
  simp only [if_true]
  rw [if_neg h3]

theorem parseF_elems_cont (f : Nat) (cs r r2 : List Char) (acc : List JValue) (v : JValue)
    (h1 : parseF f (.val cs) = some (v, r)) (h2 : skipWs r = ',' :: r2) :
    parseF (f + 1) (.elems cs acc) = parseF f (.elems r2 (acc ++ [v])) := by
  simp only [parseF, h1, h2]
  simp only [if_true]

theorem parseF_elems_done (f : Nat) (cs r r2 : List Char) (acc : List JValue) (v : JValue)
    (h1 : parseF f (.val cs) = some (v, r)) (h2 : skipWs r = ']' :: r2) :
    parseF (f + 1) (.elems cs acc) = some (.arr (acc ++ [v]), r2) := by
  simp only [parseF, h1, h2]
  rw [if_neg (by decide : ¬(']' : Char) = ',')]
  simp only [if_true]

theorem parseF_launchMsg (g : Nat) (path : String) (port : Nat)
    (h : ∀ c ∈ path.data, goodChar c) :
    parseF (g + 7) (.val (launchServiceMessage path port).data) =
      some (.arr [.str path, .str "-p", .num port], []) := by
  have hmsg := launchMessage_data path port h
  set A3 : List Char := ' ' :: (natChars port ++ [']']) with hA3
  set A2 : List Char := ' ' :: '"' :: '-' :: 'p' :: '"' :: ',' :: A3 with hA2
  set A1 : List Char := '"' :: (path.data ++ '"' :: ',' :: A2) with hA1
  have hmsg2 : (launchServiceMessage path port).data = '[' :: A1 := by
    rw [hmsg, hA1, hA2, hA3]; simp
  have hnum : parseF (g + 3) (.val A3) = some (.num port, [']']) :=
    parseF_val_num (g + 2) A3 [']'] port
      (by rw [hA3, skipWs_cons_ws _ _ (by decide)]
          obtain ⟨dc, dt, hdig⟩ := List.exists_cons_of_ne_nil (natChars_ne_nil port)
          have hdc := natChars_facts port dc (by rw [hdig]; simp)
          rw [hdig, List.cons_append, skipWs_cons_not _ _ hdc.2.1])
      (by show isDigitC ']' = false; decide)
  have helems3 : parseF (g + 4) (.elems A3 [.str path, .str "-p"]) =
      some (.arr [.str path, .str "-p", .num port], []) :=
    parseF_elems_done (g + 3) A3 [']'] [] [.str path, .str "-p"] (.num port) hnum
      (skipWs_cons_not _ _ (by decide))
  have hmp : parseF (g + 4) (.val A2) = some (.str "-p", ',' :: A3) := by
    have := parseF_val_str (g + 3) A2 ['-', 'p'] (',' :: A3)
      (by rw [hA2, skipWs_cons_ws _ _ (by decide), skipWs_cons_not _ _ (by decide)]
          rfl)
      (by decide)
    simpa using this
  have helems2 : parseF (g + 5) (.elems A2 [.str path]) =
      some (.arr [.str path, .str "-p", .num port], []) := by
    rw [parseF_elems_cont (g + 4) A2 (',' :: A3) A3 [.str path] (.str "-p") hmp
      (skipWs_cons_not _ _ (by decide))]
    simpa using helems3
  have hpath : parseF (g + 5) (.val A1) = some (.str path, ',' :: A2) := by
    have := parseF_val_str (g + 4) A1 path.data (',' :: A2)
      (by rw [hA1, skipWs_cons_not _ _ (by decide)]) h
    simpa [string_mk_data] using this
  have helems1 : parseF (g + 6) (.elems A1 []) =
      some (.arr [.str path, .str "-p", .num port], []) := by
    rw [parseF_elems_cont (g + 5) A1 (',' :: A2) A2 [] (.str path) hpath
      (skipWs_cons_not _ _ (by decide))]
    simpa using helems2
  rw [hmsg2]
  rw [parseF_val_arr (g + 6) ('[' :: A1) A1 (path.data ++ '"' :: ',' :: A2) '"'
    (skipWs_cons_not _ _ (by decide)) (by rw [hA1]; exact skipWs_cons_not _ _ (by decide))
    (by decide)]
  exact helems1

theorem loads_launchMessage (path : String) (port : Nat)
    (h : ∀ c ∈ path.data, goodChar c) :
    loads (launchServiceMessage path port) =
      some (.arr [.str path, .str "-p", .num port]) := by
  obtain ⟨g, hg⟩ : ∃ g, (launchServiceMessage path port).data.length + 1 = g + 7 := by
    refine ⟨(launchServiceMessage path port).data.length - 6, ?_⟩
    have : 6 ≤ (launchServiceMessage path port).data.length := by
      rw [launchMessage_data path port h]
      simp
      omega
    omega
  rw [loads, hg, parseF_launchMsg g path port h]
  simp [skipWs]

/-! ## Event traces over the scheduler callbacks -/

/-- A scheduler-side callback delivery: a resource-offer batch or a status
update. -/
inductive Event where
  | offers (os : List Offer)
  | status (u : StatusUpdate)

/-- The scheduler state after one callback (an exception escaping
`statusUpdate` leaves the partially mutated state behind). -/
def stepEvent (cfg : Config) (s : SchedState) : Event → SchedState
  | .offers os => (resourceOffers cfg s os).1
  | .status u =>
    match statusUpdate cfg s u with
    | .ok p => p.1
    | .error s' => s'

/-- The scheduler state after a trace of callbacks. -/
def runEvents (cfg : Config) (s : SchedState) (es : List Event) : SchedState :=
  es.foldl (stepEvent cfg) s

/-- Trace validity for the C4 hypotheses: every FINISHED status update
carries the task id of a previously launched task (a `taskData` key), and
no launched task finishes twice.  `seen` accumulates the finished ids. -/
def validFrom (cfg : Config) : SchedState → List String → List Event → Bool
  | _, _, [] => true
  | s, seen, .offers os :: es => validFrom cfg (stepEvent cfg s (.offers os)) seen es
  | s, seen, .status u :: es =>
    (if u.state = TaskState.TASK_FINISHED then
       hasKey s.taskData u.task_id && !(seen.contains u.task_id)
     else true) &&
    validFrom cfg (stepEvent cfg s (.status u))
      (if u.state = TaskState.TASK_FINISHED then u.task_id :: seen else seen) es

/-- Run several `resourceOffers` calls, collecting every driver call. -/
def runOffers (cfg : Config) (s : SchedState) :
    List (List Offer) → SchedState × List DriverCall
  | [] => (s, [])
  | b :: bs =>
    let p := resourceOffers cfg s b
    let q := runOffers cfg p.1 bs
    (q.1, p.2 ++ q.2)

/-- All tasks handed to `driver.launchTasks` among a list of driver calls. -/
def launchedTasks (acts : List DriverCall) : List TaskInfo :=
  acts.foldr (fun a acc => match a with | .launchTasks _ ts => ts ++ acc | _ => acc) []

/-- The scheduler's placement invariant: `taskData` keys are exactly the
string task ids `0 .. tasksLaunched-1` in order, hostnames with an
ExecutorRecord are distinct and number `tasksLaunched`, and at most `n_exe`
tasks are ever launched. -/
def SchedInv (cfg : Config) (s : SchedState) : Prop :=
  s.taskData.map Prod.fst = (List.range s.tasksLaunched).map natStr ∧
  (s.executors.map Prod.fst).Nodup ∧
  s.executors.length = s.tasksLaunched ∧
  s.tasksLaunched ≤ cfg.n_exe

/-! ## Dictionary and invariant lemmas -/

theorem hasKey_false_iff {α : Type} (l : List (String × α)) (k : String) :
    hasKey l k = false ↔ ∀ kv ∈ l, kv.1 ≠ k := by
  simp [hasKey]

theorem hasKey_true_iff {α : Type} (l : List (String × α)) (k : String) :
    hasKey l k = true ↔ ∃ kv ∈ l, kv.1 = k := by
  simp [hasKey]

theorem dictInsert_fresh {α : Type} (l : List (String × α)) (k : String) (v : α)
    (h : hasKey l k = false) : dictInsert l k v = l ++ [(k, v)] := by
  simp [dictInsert, h]

theorem mem_keys_of_hasKey {α : Type} (l : List (String × α)) (k : String)
    (h : hasKey l k = true) : k ∈ l.map Prod.fst := by
  obtain ⟨kv, hkv, hk⟩ := (hasKey_true_iff l k).1 h
  exact hk ▸ List.mem_map_of_mem Prod.fst hkv

theorem not_mem_keys_of_hasKey_false {α : Type} (l : List (String × α)) (k : String)
    (h : hasKey l k = false) : k ∉ l.map Prod.fst := by
  intro hmem
  obtain ⟨kv, hkv, hk⟩ := List.mem_map.1 hmem
  exact (hasKey_false_iff l k).1 h kv hkv hk

theorem natStr_fresh (n : Nat) : natStr n ∉ (List.range n).map natStr := by
  intro h
  obtain ⟨m, hm, he⟩ := List.mem_map.1 h
  have hm' := List.mem_range.1 hm
  have := natStr_inj he
  omega

theorem taskData_key_fresh (s : SchedState)
    (hshape : s.taskData.map Prod.fst = (List.range s.tasksLaunched).map natStr) :
    hasKey s.taskData (natStr s.tasksLaunched) = false := by
  rw [← Bool.not_eq_true]
  intro h
  exact natStr_fresh s.tasksLaunched (hshape ▸ mem_keys_of_hasKey _ _ h)

theorem processOffer_accept (cfg : Config) (s : SchedState) (o : Offer)
    (h1 : s.tasksLaunched < cfg.n_exe) (h2 : hasKey s.executors o.hostname = false) :
    processOffer cfg s o =
      ({ s with
          tasksLaunched := s.tasksLaunched + 1,
          taskData := dictInsert s.taskData (natStr s.tasksLaunched)
            (o.slave_id, cfg.executor_id),
          executors := dictInsert s.executors o.hostname
            (.ofOfferTask o (mkTask cfg s.tasksLaunched o)) },
       [mkTask cfg s.tasksLaunched o]) := by
  rw [processOffer, if_pos ⟨h1, h2⟩]
  rfl

theorem processOffer_decline (cfg : Config) (s : SchedState) (o : Offer)
    (h : ¬(s.tasksLaunched < cfg.n_exe ∧ hasKey s.executors o.hostname = false)) :
    processOffer cfg s o = (s, []) := by
  rw [processOffer, if_neg h]

theorem processOffer_inv (cfg : Config) (s : SchedState) (o : Offer)
    (h : SchedInv cfg s) : SchedInv cfg (processOffer cfg s o).1 := by
  obtain ⟨hshape, hnodup, hlen, hle⟩ := h
  by_cases hg : s.tasksLaunched < cfg.n_exe ∧ hasKey s.executors o.hostname = false
  · rw [processOffer_accept cfg s o hg.1 hg.2]
    refine ⟨?_, ?_, ?_, ?_⟩
    · show (dictInsert s.taskData (natStr s.tasksLaunched) _).map Prod.fst = _
      rw [dictInsert_fresh _ _ _ (taskData_key_fresh s hshape)]
      rw [List.map_append, hshape, List.range_succ, List.map_append]
      simp
    · show ((dictInsert s.executors o.hostname _).map Prod.fst).Nodup
      rw [dictInsert_fresh _ _ _ hg.2, List.map_append]
      rw [List.nodup_append]
      exact ⟨hnodup, List.nodup_singleton _,
        by simpa using fun hmem => not_mem_keys_of_hasKey_false _ _ hg.2 hmem⟩
    · show (dictInsert s.executors o.hostname _).length = s.tasksLaunched + 1
      rw [dictInsert_fresh _ _ _ hg.2, List.length_append, hlen]
      rfl
    · exact hg.1
  · rw [processOffer_decline cfg s o hg]
    exact ⟨hshape, hnodup, hlen, hle⟩

theorem resourceOffers_inv (cfg : Config) :
    ∀ (os : List Offer) (s : SchedState), SchedInv cfg s →
      SchedInv cfg (resourceOffers cfg s os).1 := by
  intro os
  induction os with
  | nil => intro s h; exact h
  | cons o t ih =>
    intro s h
    show SchedInv cfg (resourceOffers cfg (processOffer cfg s o).1 t).1
    exact ih _ (processOffer_inv cfg s o h)

theorem runOffers_inv (cfg : Config) :
    ∀ (bs : List (List Offer)) (s : SchedState), SchedInv cfg s →
      SchedInv cfg (runOffers cfg s bs).1 := by
  intro bs
  induction bs with
  | nil => intro s h; exact h
  | cons b t ih =>
    intro s h
    exact ih _ (resourceOffers_inv cfg b s h)

theorem initState_inv (cfg : Config) : SchedInv cfg initState :=
  ⟨rfl, List.nodup_nil, rfl, Nat.zero_le _⟩

/-! ## Frame lemmas for statusUpdate and resourceOffers -/

theorem statusUpdate_frame (cfg : Config) (s : SchedState) (u : StatusUpdate) :
    (stepEvent cfg s (.status u)).taskData = s.taskData ∧
    (stepEvent cfg s (.status u)).tasksLaunched = s.tasksLaunched ∧
    (stepEvent cfg s (.status u)).tasksFinished =
      s.tasksFinished + (if u.state = TaskState.TASK_FINISHED then 1 else 0) := by
  by_cases h : u.state = TaskState.TASK_FINISHED
  · rw [stepEvent]
    rw [statusUpdate, if_pos h]
    simp only [h, if_pos rfl]
    split
    next p hp =>
      repeat' split at hp
      all_goals (try (cases hp; simp))
      all_goals simp_all
    next s' hs' =>
      repeat' split at hs'
      all_goals (try (cases hs'; simp))
      all_goals simp_all
  · rw [stepEvent]
    rw [statusUpdate, if_neg h]
    simp [h]

theorem processOffer_finished (cfg : Config) (s : SchedState) (o : Offer) :
    (processOffer cfg s o).1.tasksFinished = s.tasksFinished := by
  by_cases hg : s.tasksLaunched < cfg.n_exe ∧ hasKey s.executors o.hostname = false
  · rw [processOffer_accept cfg s o hg.1 hg.2]
  · rw [processOffer_decline cfg s o hg]

theorem resourceOffers_finished (cfg : Config) :
    ∀ (os : List Offer) (s : SchedState),
      (resourceOffers cfg s os).1.tasksFinished = s.tasksFinished := by
  intro os
  induction os with
  | nil => intro s; rfl
  | cons o t ih =>
    intro s
    show (resourceOffers cfg (processOffer cfg s o).1 t).1.tasksFinished = _
    rw [ih, processOffer_finished]

theorem dictInsert_keys_superset {α : Type} (l : List (String × α)) (k : String) (v : α)
    (x : String) (hx : x ∈ l.map Prod.fst) : x ∈ (dictInsert l k v).map Prod.fst := by
  rw [dictInsert]
  by_cases hk : hasKey l k
  · rw [if_pos hk, List.map_map]
    obtain ⟨kv, hkv, he⟩ := List.mem_map.1 hx
    refine List.mem_map.2 ⟨kv, hkv, ?_⟩
    by_cases hb : kv.1 = k
    · simp [Function.comp, hb, ← he]
    · simp [Function.comp, hb, ← he]
  · rw [if_neg hk, List.map_append]
    exact List.mem_append_left _ hx

theorem processOffer_keys_grow (cfg : Config) (s : SchedState) (o : Offer) (x : String)
    (hx : x ∈ s.taskData.map Prod.fst) :
    x ∈ (processOffer cfg s o).1.taskData.map Prod.fst := by
  by_cases hg : s.tasksLaunched < cfg.n_exe ∧ hasKey s.executors o.hostname = false
  · rw [processOffer_accept cfg s o hg.1 hg.2]
    exact dictInsert_keys_superset _ _ _ _ hx
  · rw [processOffer_decline cfg s o hg]
    exact hx

/-! ## The counting invariant behind C4 -/

/-- Auxiliary invariant tying the scheduler counters to the set of task ids
seen in FINISHED updates. -/
def CountInv (s : SchedState) (seen : List String) : Prop :=
  s.tasksFinished = seen.length ∧ seen.Nodup ∧
  (∀ x ∈ seen, x ∈ s.taskData.map Prod.fst) ∧
  s.taskData.map Prod.fst = (List.range s.tasksLaunched).map natStr

theorem resourceOffers_shape (cfg : Config) :
    ∀ (os : List Offer) (s : SchedState),
      s.taskData.map Prod.fst = (List.range s.tasksLaunched).map natStr →
      (resourceOffers cfg s os).1.taskData.map Prod.fst =
        (List.range (resourceOffers cfg s os).1.tasksLaunched).map natStr := by
  intro os
  induction os with
  | nil => intro s h; exact h
  | cons o t ih =>
    intro s h
    show (resourceOffers cfg (processOffer cfg s o).1 t).1.taskData.map Prod.fst = _
    refine ih _ ?_
    by_cases hg : s.tasksLaunched < cfg.n_exe ∧ hasKey s.executors o.hostname = false
    · rw [processOffer_accept cfg s o hg.1 hg.2]
      show (dictInsert s.taskData (natStr s.tasksLaunched) _).map Prod.fst = _
      rw [dictInsert_fresh _ _ _ (taskData_key_fresh s h)]
      rw [List.map_append, h, List.range_succ, List.map_append]
      simp
    · rw [processOffer_decline cfg s o hg]
      exact h

theorem resourceOffers_keys_grow (cfg : Config) :
    ∀ (os : List Offer) (s : SchedState) (x : String),
      x ∈ s.taskData.map Prod.fst →
      x ∈ (resourceOffers cfg s os).1.taskData.map Prod.fst := by
  intro os
  induction os with
  | nil => intro s x h; exact h
  | cons o t ih =>
    intro s x h
    exact ih _ x (processOffer_keys_grow cfg s o x h)

theorem countInv_step (cfg : Config) (s : SchedState) (seen : List String) (e : Event)
    (hinv : CountInv s seen)
    (hvalid : ∀ u, e = Event.status u → u.state = TaskState.TASK_FINISHED →
      hasKey s.taskData u.task_id = true ∧ seen.contains u.task_id = false) :
    CountInv (stepEvent cfg s e)
      (match e with
       | .offers _ => seen
       | .status u => if u.state = TaskState.TASK_FINISHED then u.task_id :: seen else seen) := by
  obtain ⟨hfin, hnodup, hsub, hshape⟩ := hinv
  match e with
  | .offers os =>
    refine ⟨?_, hnodup, ?_, ?_⟩
    · show (resourceOffers cfg s os).1.tasksFinished = _
      rw [resourceOffers_finished cfg os s, hfin]
    · intro x hx
      exact resourceOffers_keys_grow cfg os s x (hsub x hx)
    · exact resourceOffers_shape cfg os s hshape
  | .status u =>
    show CountInv (stepEvent cfg s (.status u))
      (if u.state = TaskState.TASK_FINISHED then u.task_id :: seen else seen)
    obtain ⟨htd, htl, htf⟩ := statusUpdate_frame cfg s u
    by_cases hu : u.state = TaskState.TASK_FINISHED
    · obtain ⟨hkey, hseen⟩ := hvalid u rfl hu
      have hmem : u.task_id ∉ seen := by
        intro hmem
        rw [List.contains_eq_any_beq] at hseen
        simp [List.any_eq_false] at hseen
        exact hseen _ hmem rfl
      rw [if_pos hu]
      refine ⟨?_, List.nodup_cons.2 ⟨hmem, hnodup⟩, ?_, ?_⟩
      · rw [htf, if_pos hu, hfin]
        simp
      · intro x hx
        rw [htd]
        rcases List.mem_cons.1 hx with hx | hx
        · exact hx ▸ mem_keys_of_hasKey _ _ hkey
        · exact hsub x hx
      · rw [htd, htl]
        exact hshape
    · rw [if_neg hu]
      refine ⟨?_, hnodup, ?_, ?_⟩
      · rw [htf, if_neg hu, hfin]
        simp
      · intro x hx
        rw [htd]
        exact hsub x hx
      · rw [htd, htl]
        exact hshape

theorem countInv_run (cfg : Config) :
    ∀ (es : List Event) (s : SchedState) (seen : List String),
      validFrom cfg s seen es = true → CountInv s seen →
      ∃ seen', CountInv (runEvents cfg s es) seen' := by
  intro es
  induction es with
  | nil => intro s seen _ hinv; exact ⟨seen, hinv⟩
  | cons e t ih =>
    intro s seen hv hinv
    match e with
    | .offers os =>
      rw [validFrom] at hv
      refine ih _ seen hv ?_
      exact countInv_step cfg s seen (.offers os) hinv (by intro u hu; cases hu)
    | .status u =>
      rw [validFrom, Bool.and_eq_true] at hv
      refine ih _ _ hv.2 ?_
      refine countInv_step cfg s seen (.status u) hinv ?_
      intro u' hu' hfin
      cases hu'
      have := hv.1
      rw [if_pos hfin, Bool.and_eq_true] at this
      exact ⟨this.1, by simpa using this.2⟩

theorem countInv_le (s : SchedState) (seen : List String) (h : CountInv s seen) :
    s.tasksFinished ≤ s.tasksLaunched := by
  obtain ⟨hfin, hnodup, hsub, hshape⟩ := h
  have hle : seen.length ≤ (s.taskData.map Prod.fst).length :=
    (List.Nodup.subperm hnodup hsub).length_le
  rw [hshape] at hle
  simpa [hfin] using hle

/-! ## Task ids of launched tasks (C5) -/

theorem launchedTasks_cons (a : DriverCall) (t : List DriverCall) :
    launchedTasks (a :: t) =
      (match a with | DriverCall.launchTasks _ ts => ts | _ => []) ++ launchedTasks t := by
  cases a <;> simp [launchedTasks]

theorem launchedTasks_append (a b : List DriverCall) :
    launchedTasks (a ++ b) = launchedTasks a ++ launchedTasks b := by
  induction a with
  | nil => rfl
  | cons x t ih =>
    rw [List.cons_append, launchedTasks_cons, launchedTasks_cons, ih, List.append_assoc]

theorem resourceOffers_task_ids (cfg : Config) :
    ∀ (os : List Offer) (s : SchedState),
      s.taskData.map Prod.fst = (List.range s.tasksLaunched).map natStr →
      (List.range s.tasksLaunched).map natStr ++
        (launchedTasks (resourceOffers cfg s os).2).map TaskInfo.task_id =
      (List.range (resourceOffers cfg s os).1.tasksLaunched).map natStr := by
  intro os
  induction os with
  | nil =>
    intro s h
    show (List.range s.tasksLaunched).map natStr ++ (launchedTasks []).map _ =
      (List.range s.tasksLaunched).map natStr
    simp [launchedTasks]
  | cons o t ih =>
    intro s h
    show (List.range s.tasksLaunched).map natStr ++
      (launchedTasks (DriverCall.launchTasks o.offer_id (processOffer cfg s o).2 ::
        (resourceOffers cfg (processOffer cfg s o).1 t).2)).map TaskInfo.task_id =
      (List.range (resourceOffers cfg (processOffer cfg s o).1 t).1.tasksLaunched).map natStr
    rw [launchedTasks_cons]
    by_cases hg : s.tasksLaunched < cfg.n_exe ∧ hasKey s.executors o.hostname = false
    · have hacc := processOffer_accept cfg s o hg.1 hg.2
      have hshape' : (processOffer cfg s o).1.taskData.map Prod.fst =
          (List.range (processOffer cfg s o).1.tasksLaunched).map natStr := by
        rw [hacc]
        show (dictInsert s.taskData (natStr s.tasksLaunched) _).map Prod.fst = _
        rw [dictInsert_fresh _ _ _ (taskData_key_fresh s h)]
        rw [List.map_append, h, List.range_succ, List.map_append]
        simp
      have := ih (processOffer cfg s o).1 hshape'
      rw [hacc] at this ⊢
      show (List.range s.tasksLaunched).map natStr ++
        (([mkTask cfg s.tasksLaunched o] ++ launchedTasks _).map TaskInfo.task_id) = _
      rw [List.map_append, ← List.append_assoc]
      rw [show ((List.range s.tasksLaunched).map natStr ++
            ([mkTask cfg s.tasksLaunched o].map TaskInfo.task_id)) =
          (List.range (s.tasksLaunched + 1)).map natStr from by
        rw [List.range_succ, List.map_append]; simp [mkTask]]
      simpa using this
    · have hdec := processOffer_decline cfg s o hg
      have := ih (processOffer cfg s o).1 (by rw [hdec]; exact h)
      rw [hdec] at this ⊢
      simpa using this

theorem runOffers_task_ids (cfg : Config) :
    ∀ (bs : List (List Offer)) (s : SchedState),
      s.taskData.map Prod.fst = (List.range s.tasksLaunched).map natStr →
      (List.range s.tasksLaunched).map natStr ++
        (launchedTasks (runOffers cfg s bs).2).map TaskInfo.task_id =
      (List.range (runOffers cfg s bs).1.tasksLaunched).map natStr := by
  intro bs
  induction bs with
  | nil =>
    intro s h
    show (List.range s.tasksLaunched).map natStr ++ (launchedTasks []).map _ =
      (List.range s.tasksLaunched).map natStr
    simp [launchedTasks]
  | cons b t ih =>
    intro s h
    show (List.range s.tasksLaunched).map natStr ++
      (launchedTasks ((resourceOffers cfg s b).2 ++
        (runOffers cfg (resourceOffers cfg s b).1 t).2)).map TaskInfo.task_id =
      (List.range (runOffers cfg (resourceOffers cfg s b).1 t).1.tasksLaunched).map natStr
    rw [launchedTasks_append, List.map_append, ← List.append_assoc]
    rw [resourceOffers_task_ids cfg b s h]
    exact ih _ (resourceOffers_shape cfg b s h)

/-! ## Per-offer resolution (C2) -/

theorem hasKey_of_mem_keys {α : Type} (l : List (String × α)) (k : String)
    (h : k ∈ l.map Prod.fst) : hasKey l k = true := by
  obtain ⟨kv, hkv, he⟩ := List.mem_map.1 h
  exact (hasKey_true_iff l k).2 ⟨kv, hkv, he⟩

theorem processOffer_hasKey_mono (cfg : Config) (s : SchedState) (o : Offer) (x : String)
    (hx : hasKey s.executors x = true) :
    hasKey (processOffer cfg s o).1.executors x = true := by
  by_cases hg : s.tasksLaunched < cfg.n_exe ∧ hasKey s.executors o.hostname = false
  · rw [processOffer_accept cfg s o hg.1 hg.2]
    exact hasKey_of_mem_keys _ _
      (dictInsert_keys_superset _ _ _ _ (mem_keys_of_hasKey _ _ hx))
  · rw [processOffer_decline cfg s o hg]
    exact hx

theorem resourceOffers_resolves (cfg : Config) :
    ∀ (os : List Offer) (s : SchedState),
      ((resourceOffers cfg s os).2).length = os.length ∧
      ∀ i (hi : i < os.length) (hj : i < ((resourceOffers cfg s os).2).length),
        ∃ ts, ((resourceOffers cfg s os).2).get ⟨i, hj⟩ =
            DriverCall.launchTasks (os.get ⟨i, hi⟩).offer_id ts ∧
          ts.length ≤ 1 ∧
          (hasKey s.executors (os.get ⟨i, hi⟩).hostname = true → ts = []) := by
  intro os
  induction os with
  | nil => intro s; exact ⟨rfl, fun i hi => absurd hi (Nat.not_lt_zero i)⟩
  | cons o t ih =>
    intro s
    obtain ⟨ihlen, ihget⟩ := ih (processOffer cfg s o).1
    constructor
    · show (DriverCall.launchTasks o.offer_id (processOffer cfg s o).2 ::
        (resourceOffers cfg (processOffer cfg s o).1 t).2).length = t.length + 1
      rw [List.length_cons, ihlen]
    · intro i hi hj
      match i with
      | 0 =>
        refine ⟨(processOffer cfg s o).2, rfl, ?_, ?_⟩
        · by_cases hg : s.tasksLaunched < cfg.n_exe ∧ hasKey s.executors o.hostname = false
          · rw [processOffer_accept cfg s o hg.1 hg.2]
            exact le_refl 1
          · rw [processOffer_decline cfg s o hg]
            exact Nat.zero_le 1
        · intro hk
          have hg : ¬(s.tasksLaunched < cfg.n_exe ∧ hasKey s.executors o.hostname = false) := by
            rintro ⟨-, h2⟩
            rw [show (o :: t).get ⟨0, hi⟩ = o from rfl] at hk
            rw [hk] at h2
            cases h2
          rw [processOffer_decline cfg s o hg]
      | Nat.succ k =>
        have hk : k < t.length := Nat.lt_of_succ_lt_succ hi
        have hj' : k < ((resourceOffers cfg (processOffer cfg s o).1 t).2).length := by
          rw [ihlen]; exact hk
        obtain ⟨ts, hget, hlen, hdecl⟩ := ihget k hk hj'
        refine ⟨ts, ?_, hlen, ?_⟩
        · show ((resourceOffers cfg (processOffer cfg s o).1 t).2).get ⟨k, hj'⟩ = _
          exact hget
        · intro hkk
          refine hdecl ?_
          exact processOffer_hasKey_mono cfg s o _ hkk

/-! ## The FINISHED success path of statusUpdate (C3, C6) -/

theorem lookup_updateFirstExe (sid : String) (f : ExecutorInfo → ExecutorInfo)
    (hf : ∀ e, (f e).slave_id = e.slave_id) :
    ∀ l : List (String × ExecutorInfo),
      ((updateFirstExe l sid f).map Prod.snd).find? (fun exe => exe.slave_id == sid) =
        Option.map f ((l.map Prod.snd).find? (fun exe => exe.slave_id == sid)) := by
  intro l
  induction l with
  | nil => rfl
  | cons kv t ih =>
    by_cases h : kv.2.slave_id == sid
    · rw [updateFirstExe, if_pos h]
      have h2 : ((f kv.2).slave_id == sid) = true := by
        rw [hf kv.2]; exact h
      simp [List.find?_cons, h, h2]
    · rw [updateFirstExe, if_neg h]
      simp only [List.map_cons, List.find?_cons]
      rw [Bool.not_eq_true] at h
      simp [h, ih]

theorem statusUpdate_finished_ok (cfg : Config) (s : SchedState) (u : StatusUpdate)
    (h : u.state = TaskState.TASK_FINISHED)
    (k sid eid : String)
    (hfind : s.taskData.find? (fun kv => kv.1 == u.task_id) = some (k, sid, eid))
    (fields : List (String × JValue))
    (hloads : loads u.data = some (.obj fields))
    (fk : String) (ip : JValue)
    (hip : fields.find? (fun kv => kv.1 == "ip_addr") = some (fk, ip))
    (exe : ExecutorInfo)
    (hexe : (s.executors.map Prod.snd).find? (fun e => e.slave_id == sid) = some exe) :
    statusUpdate cfg s u = .ok
      ({ s with
          tasksFinished := s.tasksFinished + 1,
          messagesSent := s.messagesSent + 1,
          executors := updateFirstExe s.executors sid
            (fun e => { e with ip_addr := some ip, port := some Worker.DEFAULT_PORT }) },
       [DriverCall.sendFrameworkMessage eid sid
          (launchServiceMessage cfg.exe_path Worker.DEFAULT_PORT)]) := by
  rw [statusUpdate, if_pos h]
  simp only [hfind, hloads, hip]
  have hexe2 : MesosScheduler.lookup_executor
      { s with tasksFinished := s.tasksFinished + 1,
               messagesSent := s.messagesSent + 1 } sid eid = some exe := by
    rw [MesosScheduler.lookup_executor]
    exact hexe
  simp only [MesosScheduler.lookup_executor] at hexe2 ⊢
  simp only [hexe2]

/-! ## Concrete fixtures used by the witnesses -/

/-- A concrete configuration with `n_exe` executors requested. -/
def cfgW (n : Nat) : Config :=
  { exe_path := "/usr/local/bin/exelixi", n_exe := n, ff_name := "ff", pfx := "pre",
    cpu_alloc := 1, mem_alloc := 32, executor_id := "EXEC" }

/-- A concrete ExecutorRecord fixture. -/
def exeW : ExecutorInfo := { hostname := "h1", slave_id := "S", task_id := "0" }

/-- A concrete scheduler state with one launched task on host `h1`. -/
def sW : SchedState :=
  { taskData := [("0", "S", "EXEC")], tasksLaunched := 1, tasksFinished := 0,
    messagesSent := 0, messagesReceived := 0, executors := [("h1", exeW)] }

/-! ## The claims -/

/-- C1 (counterexample): with `n_exe = 2` and no prior messages, the handler
increments `messagesReceived` to `1 ≠ 2` and returns normally, with no
orchestration call, no driver stop and no `sys.exit(1)` — contradicting the
claim that in every non-orchestrating case the process terminates with exit
status 1. -/
theorem frameworkMessage_below_threshold_cex :
    frameworkMessage (cfgW 2) initState "e" "s" "m" =
      FMOutcome.normal { initState with messagesReceived := 1 } [] ∧
    (1 : Nat) ≠ (cfgW 2).n_exe := by
  constructor
  · rfl
  · decide

/-- C1 (amended): the Orchestrator's run-to-completion entry point is
invoked by `frameworkMessage` if and only if, after the increment,
`messagesReceived = n_exe` and `messagesReceived = messagesSent`; when
`messagesReceived = n_exe` but the counters differ the process exits with
status 1 before orchestration; when `messagesReceived ≠ n_exe` the handler
returns without orchestration or exit; after the Orchestrator returns, a
stop instruction is issued to the driver. -/
theorem frameworkMessage_trichotomy (cfg : Config) (s : SchedState)
    (eid sid msg : String) :
    (s.messagesReceived + 1 = cfg.n_exe → s.messagesReceived + 1 = s.messagesSent →
      frameworkMessage cfg s eid sid msg =
        .normal { s with messagesReceived := s.messagesReceived + 1 }
          [DriverCall.orchestrate cfg.ff_name cfg.pfx
            (s.executors.map (fun kv => kv.2.get_exe_uri)), DriverCall.stop]) ∧
    (s.messagesReceived + 1 = cfg.n_exe → s.messagesReceived + 1 ≠ s.messagesSent →
      frameworkMessage cfg s eid sid msg =
        .exited 1 { s with messagesReceived := s.messagesReceived + 1 }) ∧
    (s.messagesReceived + 1 ≠ cfg.n_exe →
      frameworkMessage cfg s eid sid msg =
        .normal { s with messagesReceived := s.messagesReceived + 1 } []) := by
  refine ⟨?_, ?_, ?_⟩
  · intro h1 h2
    simp [frameworkMessage, h1, h2]
    omega
  · intro h1 h2
    simp [frameworkMessage, h1, h2]
    omega
  · intro h1
    simp [frameworkMessage, h1]

/-- C1 (witness): with `n_exe = 1` and one message already sent, the single
acknowledgement triggers orchestration followed by a driver stop. -/
theorem frameworkMessage_trichotomy_witness :
    frameworkMessage (cfgW 1) { initState with messagesSent := 1 } "e" "s" "m" =
      FMOutcome.normal { initState with messagesSent := 1, messagesReceived := 1 }
        [DriverCall.orchestrate "ff" "pre" [], DriverCall.stop] :=
  (frameworkMessage_trichotomy (cfgW 1) { initState with messagesSent := 1 }
    "e" "s" "m").1 rfl rfl

/-- C2: over any sequence of offer batches from the initial state, the
number of launched tasks never exceeds `n_exe`; hostnames holding an
ExecutorRecord are pairwise distinct and number exactly `tasksLaunched`
(no two launched tasks share a host); and every offer of a
`resourceOffers` call is explicitly resolved by its own `launchTasks`
driver call, with a task list of at most one task that is empty whenever
the offer's hostname already has an ExecutorRecord. -/
theorem resourceOffers_placement (cfg : Config) (batches : List (List Offer)) :
    (runOffers cfg initState batches).1.tasksLaunched ≤ cfg.n_exe ∧
    ((runOffers cfg initState batches).1.executors.map Prod.fst).Nodup ∧
    (runOffers cfg initState batches).1.executors.length =
      (runOffers cfg initState batches).1.tasksLaunched ∧
    (∀ (s : SchedState) (os : List Offer),
      ((resourceOffers cfg s os).2).length = os.length ∧
      ∀ i (hi : i < os.length) (hj : i < ((resourceOffers cfg s os).2).length),
        ∃ ts, ((resourceOffers cfg s os).2).get ⟨i, hj⟩ =
            DriverCall.launchTasks (os.get ⟨i, hi⟩).offer_id ts ∧
          ts.length ≤ 1 ∧
          (hasKey s.executors (os.get ⟨i, hi⟩).hostname = true → ts = [])) := by
  obtain ⟨h1, h2, h3, h4⟩ := runOffers_inv cfg batches initState (initState_inv cfg)
  exact ⟨h4, h2, h3, fun s os => resourceOffers_resolves cfg os s⟩

/-- C2 (witness): a single batch with two offers on the same host under
`n_exe = 1` launches one task and resolves both offers, declining the
second. -/
theorem resourceOffers_placement_witness :
    (runOffers (cfgW 1) initState [[⟨"o1", "h1", "S1"⟩, ⟨"o2", "h1", "S2"⟩]]).1.tasksLaunched ≤ 1 ∧
    ((resourceOffers (cfgW 1) initState [⟨"o1", "h1", "S1"⟩, ⟨"o2", "h1", "S2"⟩]).2).length = 2 ∧
    (∃ ts, ((resourceOffers (cfgW 1) initState
        [⟨"o1", "h1", "S1"⟩, ⟨"o2", "h1", "S2"⟩]).2).get ⟨0, by decide⟩ =
          DriverCall.launchTasks "o1" ts ∧ ts.length ≤ 1 ∧
        (hasKey initState.executors "h1" = true → ts = [])) := by
  obtain ⟨h1, -, -, h4⟩ :=
    resourceOffers_placement (cfgW 1) [[⟨"o1", "h1", "S1"⟩, ⟨"o2", "h1", "S2"⟩]]
  obtain ⟨hlen, hget⟩ := h4 initState [⟨"o1", "h1", "S1"⟩, ⟨"o2", "h1", "S2"⟩]
  refine ⟨h1, hlen, ?_⟩
  obtain ⟨ts, ha, hb, hc⟩ := hget 0 (by decide) (by decide)
  exact ⟨ts, ha, hb, hc⟩

/-- C10: whenever the incremented `messagesReceived` differs from `n_exe`
— including every duplicate or late acknowledgement beyond the threshold —
`frameworkMessage` returns normally with the counter incremented, every
other field unchanged, and no driver call, no orchestration and no process
exit. -/
theorem frameworkMessage_frame_off_threshold (cfg : Config) (s : SchedState)
    (eid sid msg : String) (h : s.messagesReceived + 1 ≠ cfg.n_exe) :
    frameworkMessage cfg s eid sid msg =
      .normal { s with messagesReceived := s.messagesReceived + 1 } [] := by
  simp [frameworkMessage, h]

/-- C10 (witness): a third (duplicate) acknowledgement beyond `n_exe = 2`
only bumps the counter. -/
theorem frameworkMessage_frame_off_threshold_witness :
    (2 + 1 : Nat) ≠ (cfgW 2).n_exe ∧
    frameworkMessage (cfgW 2) { initState with messagesReceived := 2, messagesSent := 2 }
        "e" "s" "m" =
      FMOutcome.normal
        { initState with messagesReceived := 3, messagesSent := 2 } [] :=
  ⟨by decide, frameworkMessage_frame_off_threshold (cfgW 2)
    { initState with messagesReceived := 2, messagesSent := 2 } "e" "s" "m" (by decide)⟩

/-- C3: in `statusUpdate` only `TASK_FINISHED` is actionable.  For every
other state the handler returns with the state unchanged and no driver
call.  On a FINISHED update whose task id is recorded, whose payload
parses as a telemetry object with an `"ip_addr"` field, and whose slave
has a stored ExecutorRecord, the handler increments `tasksFinished` and
`messagesSent`, sets the matching record's IP from the telemetry and its
port to the fixed well-known worker port, and sends the serialized
`[exe_path, "-p", port]` list as a framework message to that task's
executor/slave pair. -/
theorem statusUpdate_only_finished_actionable (cfg : Config) (s : SchedState)
    (u : StatusUpdate) :
    (u.state ≠ TaskState.TASK_FINISHED → statusUpdate cfg s u = .ok (s, [])) ∧
    (u.state = TaskState.TASK_FINISHED →
      ∀ k sid eid, s.taskData.find? (fun kv => kv.1 == u.task_id) = some (k, sid, eid) →
      ∀ fields, loads u.data = some (.obj fields) →
      ∀ fk ip, fields.find? (fun kv => kv.1 == "ip_addr") = some (fk, ip) →
      ∀ exe, (s.executors.map Prod.snd).find? (fun e => e.slave_id == sid) = some exe →
      statusUpdate cfg s u = .ok
        ({ s with
            tasksFinished := s.tasksFinished + 1,
            messagesSent := s.messagesSent + 1,
            executors := updateFirstExe s.executors sid
              (fun e =>
                { e with ip_addr := some ip, port := some Worker.DEFAULT_PORT }) },
         [DriverCall.sendFrameworkMessage eid sid
            (launchServiceMessage cfg.exe_path Worker.DEFAULT_PORT)])) := by
  constructor
  · intro h
    rw [statusUpdate, if_neg h]
  · intro h k sid eid hfind fields hloads fk ip hip exe hexe
    exact statusUpdate_finished_ok cfg s u h k sid eid hfind fields hloads fk ip hip exe hexe

/-- C3 (witness): a RUNNING update changes nothing, and a FINISHED update
with valid telemetry produces the incremented counters and the launch
message. -/
theorem statusUpdate_only_finished_actionable_witness :
    statusUpdate (cfgW 1) sW ⟨"0", TaskState.TASK_RUNNING, "running discovery task"⟩ =
      .ok (sW, []) ∧
    statusUpdate (cfgW 1) sW
        ⟨"0", TaskState.TASK_FINISHED, dumps (.obj [("ip_addr", .str "1.2.3.4")])⟩ =
      .ok
        ({ sW with
            tasksFinished := 1, messagesSent := 1,
            executors := updateFirstExe sW.executors "S"
              (fun e =>
                { e with ip_addr := some (.str "1.2.3.4"), port := some Worker.DEFAULT_PORT }) },
         [DriverCall.sendFrameworkMessage "EXEC" "S"
            (launchServiceMessage "/usr/local/bin/exelixi" Worker.DEFAULT_PORT)]) := by
  constructor
  · exact (statusUpdate_only_finished_actionable (cfgW 1) sW _).1 (by decide)
  · exact (statusUpdate_only_finished_actionable (cfgW 1) sW
      ⟨"0", TaskState.TASK_FINISHED, dumps (.obj [("ip_addr", .str "1.2.3.4")])⟩).2 rfl
      "0" "S" "EXEC" rfl [("ip_addr", .str "1.2.3.4")] rfl
      "ip_addr" (.str "1.2.3.4") rfl exeW rfl

/-- C4: for every callback interleaving in which each FINISHED status
update names a previously launched task and no launched task finishes
twice, `tasksFinished ≤ tasksLaunched` holds after the trace. -/
theorem tasksFinished_le_tasksLaunched (cfg : Config) (es : List Event)
    (h : validFrom cfg initState [] es = true) :
    (runEvents cfg initState es).tasksFinished ≤
      (runEvents cfg initState es).tasksLaunched := by
  obtain ⟨seen', hinv⟩ := countInv_run cfg es initState [] h
    ⟨rfl, List.nodup_nil, by simp, rfl⟩
  exact countInv_le _ _ hinv

/-- C4 (witness): one offer followed by its FINISHED update (with an
unparsable payload, so the handler raises after the increments) keeps
`tasksFinished ≤ tasksLaunched`. -/
theorem tasksFinished_le_tasksLaunched_witness :
    validFrom (cfgW 1) initState []
        [.offers [⟨"o1", "h1", "S1"⟩], .status ⟨"0", TaskState.TASK_FINISHED, "x"⟩] = true ∧
    (runEvents (cfgW 1) initState
        [.offers [⟨"o1", "h1", "S1"⟩],
         .status ⟨"0", TaskState.TASK_FINISHED, "x"⟩]).tasksFinished ≤
      (runEvents (cfgW 1) initState
        [.offers [⟨"o1", "h1", "S1"⟩],
         .status ⟨"0", TaskState.TASK_FINISHED, "x"⟩]).tasksLaunched :=
  ⟨rfl, tasksFinished_le_tasksLaunched (cfgW 1) _ rfl⟩

/-- C5: across any sequence of offer batches from the initial state, the
task ids of the launched tasks, in launch order, are exactly
`str 0, str 1, ..., str (tasksLaunched - 1)`: the k-th accepted offer
receives task id `k`, ids are monotonically increasing and never repeat. -/
theorem task_ids_canonical (cfg : Config) (batches : List (List Offer)) :
    (launchedTasks (runOffers cfg initState batches).2).map TaskInfo.task_id =
      (List.range (runOffers cfg initState batches).1.tasksLaunched).map natStr ∧
    ((launchedTasks (runOffers cfg initState batches).2).map TaskInfo.task_id).Nodup := by
  have h := runOffers_task_ids cfg batches initState rfl
  have h2 : (launchedTasks (runOffers cfg initState batches).2).map TaskInfo.task_id =
      (List.range (runOffers cfg initState batches).1.tasksLaunched).map natStr := by
    simpa using h
  exact ⟨h2, h2 ▸ (List.nodup_range _).map natStr_inj⟩

/-- C5 (witness): two offers on distinct hosts with `n_exe = 2` produce
task ids `"0"` and `"1"`. -/
theorem task_ids_canonical_witness :
    (launchedTasks (runOffers (cfgW 2) initState
        [[⟨"o1", "h1", "S1"⟩, ⟨"o2", "h2", "S2"⟩]]).2).map TaskInfo.task_id =
      ["0", "1"] :=
  (task_ids_canonical (cfgW 2) [[⟨"o1", "h1", "S1"⟩, ⟨"o2", "h2", "S2"⟩]]).1.trans rfl

/-- C6: a FINISHED update whose payload is the executor-produced JSON
serialization of the telemetry object containing `"ip_addr": "10.0.0.5"`
leaves the matching ExecutorRecord's IP field equal to `"10.0.0.5"`. -/
theorem telemetry_ip_roundtrip (cfg : Config) (s : SchedState) (u : StatusUpdate)
    (h : u.state = TaskState.TASK_FINISHED)
    (hdata : u.data = telemetryPayload [("ip_addr", .str "10.0.0.5")])
    (k sid eid : String)
    (hfind : s.taskData.find? (fun kv => kv.1 == u.task_id) = some (k, sid, eid))
    (exe : ExecutorInfo)
    (hexe : (s.executors.map Prod.snd).find? (fun e => e.slave_id == sid) = some exe) :
    ∃ s' acts exe', statusUpdate cfg s u = .ok (s', acts) ∧
      (s'.executors.map Prod.snd).find? (fun e => e.slave_id == sid) = some exe' ∧
      exe'.ip_addr = some (.str "10.0.0.5") := by
  have hloads : loads u.data = some (.obj [("ip_addr", .str "10.0.0.5")]) := by
    rw [hdata]; rfl
  have hok := statusUpdate_finished_ok cfg s u h k sid eid hfind _ hloads
    "ip_addr" (.str "10.0.0.5") rfl exe hexe
  refine ⟨_, _,
    { exe with ip_addr := some (.str "10.0.0.5"), port := some Worker.DEFAULT_PORT },
    hok, ?_, rfl⟩
  rw [lookup_updateFirstExe sid
    (fun e =>
      { e with ip_addr := some (.str "10.0.0.5"), port := some Worker.DEFAULT_PORT })
    (fun e => rfl) s.executors, hexe]
  rfl

/-- C6 (witness): the round trip at the concrete fixture state. -/
theorem telemetry_ip_roundtrip_witness :
    ∃ s' acts exe',
      statusUpdate (cfgW 1) sW
          ⟨"0", TaskState.TASK_FINISHED, telemetryPayload [("ip_addr", .str "10.0.0.5")]⟩ =
        .ok (s', acts) ∧
      (s'.executors.map Prod.snd).find? (fun e => e.slave_id == "S") = some exe' ∧
      exe'.ip_addr = some (.str "10.0.0.5") :=
  telemetry_ip_roundtrip (cfgW 1) sW
    ⟨"0", TaskState.TASK_FINISHED, telemetryPayload [("ip_addr", .str "10.0.0.5")]⟩
    rfl rfl "0" "S" "EXEC" rfl exeW rfl

/-- C7: every launch-service message the scheduler builds by serializing
`[executablePath, "-p", port]` deserializes in the executor's
`frameworkMessage` to exactly that three-element sequence, which is
spawned as the child-process command line before the fixed
acknowledgement is sent back. -/
theorem launch_service_roundtrip (path : String) (port : Nat)
    (h : ∀ c ∈ path.data, goodChar c) :
    MesosExecutor.frameworkMessage (launchServiceMessage path port) =
      some [.popen (.arr [.str path, .str "-p", .num port]),
            .sendFrameworkMessage "service launched"] := by
  rw [MesosExecutor.frameworkMessage, loads_launchMessage path port h]

/-- C7 (witness): the round trip at `["/bin/worker", "-p", 7000]`. -/
theorem launch_service_roundtrip_witness :
    (∀ c ∈ ("/bin/worker" : String).data, goodChar c) ∧
    MesosExecutor.frameworkMessage (launchServiceMessage "/bin/worker" 7000) =
      some [.popen (.arr [.str "/bin/worker", .str "-p", .num 7000]),
            .sendFrameworkMessage "service launched"] :=
  ⟨by decide, launch_service_roundtrip "/bin/worker" 7000 (by decide)⟩

/-- C8: `lookup_executor` scans the stored ExecutorRecords linearly and
returns a record whose stored slave (host) identity matches when one
exists — the executor-id argument is not consulted — and `None` when no
stored record matches. -/
theorem lookup_executor_spec (s : SchedState) (sid eid : String) :
    (MesosScheduler.lookup_executor s sid eid = none ↔
      ∀ exe ∈ s.executors.map Prod.snd, exe.slave_id ≠ sid) ∧
    (∀ exe, MesosScheduler.lookup_executor s sid eid = some exe →
      exe.slave_id = sid ∧ exe ∈ s.executors.map Prod.snd) ∧
    (∀ exe ∈ s.executors.map Prod.snd, exe.slave_id = sid →
      ∃ r, MesosScheduler.lookup_executor s sid eid = some r) ∧
    (∀ eid', MesosScheduler.lookup_executor s sid eid =
      MesosScheduler.lookup_executor s sid eid') := by
  refine ⟨?_, ?_, ?_, fun eid' => rfl⟩
  · rw [MesosScheduler.lookup_executor, List.find?_eq_none]
    constructor
    · intro h exe hmem
      simpa using h exe hmem
    · intro h exe hmem
      simpa using h exe hmem
  · intro exe hfind
    rw [MesosScheduler.lookup_executor] at hfind
    refine ⟨by simpa using List.find?_some hfind, List.mem_of_find?_eq_some hfind⟩
  · intro exe hmem hsid
    rw [MesosScheduler.lookup_executor]
    have hex : (s.executors.map Prod.snd).find?
        (fun e => e.slave_id == sid) |>.isSome := by
      rw [List.find?_isSome]
      exact ⟨exe, hmem, by simpa using hsid⟩
    obtain ⟨r, hr⟩ := Option.isSome_iff_exists.1 hex
    exact ⟨r, hr⟩

/-- C8 (witness): at the fixture state the matching slave id is found and
a missing slave id gives `None`. -/
theorem lookup_executor_spec_witness :
    (∃ r, MesosScheduler.lookup_executor sW "S" "E" = some r) ∧
    MesosScheduler.lookup_executor sW "missing" "E" = none := by
  constructor
  · exact (lookup_executor_spec sW "S" "E").2.2.1 exeW (by simp [sW]) rfl
  · exact (lookup_executor_spec sW "missing" "E").1.2
      (by intro exe hmem
          simp [sW] at hmem
          subst hmem
          decide)

/-- C9: in `start_framework`, with the authentication toggle enabled, a
missing (or empty) principal or secret makes the process exit with status
1 before any driver is constructed; when both are present the driver is
constructed with a credential carrying exactly those two environment
values; with the toggle disabled the driver is constructed without
credentials. -/
theorem start_framework_auth (env : List (String × String)) :
    (truthyEnv env "MESOS_AUTHENTICATE" = true →
      truthyEnv env "DEFAULT_PRINCIPAL" = false → start_framework env = .error 1) ∧
    (truthyEnv env "MESOS_AUTHENTICATE" = true →
      truthyEnv env "DEFAULT_PRINCIPAL" = true →
      truthyEnv env "DEFAULT_SECRET" = false → start_framework env = .error 1) ∧
    (truthyEnv env "MESOS_AUTHENTICATE" = true →
      truthyEnv env "DEFAULT_PRINCIPAL" = true →
      truthyEnv env "DEFAULT_SECRET" = true →
      start_framework env = .ok
        { checkpoint := truthyEnv env "MESOS_CHECKPOINT",
          credential := some ((getenv env "DEFAULT_PRINCIPAL").getD "",
                              (getenv env "DEFAULT_SECRET").getD "") }) ∧
    (truthyEnv env "MESOS_AUTHENTICATE" = false →
      start_framework env = .ok
        { checkpoint := truthyEnv env "MESOS_CHECKPOINT", credential := none }) := by
  refine ⟨?_, ?_, ?_, ?_⟩ <;> intros <;> simp [start_framework, *]

/-- C9 (witness): the three environment shapes — missing principal,
complete credentials, authentication disabled. -/
theorem start_framework_auth_witness :
    start_framework [("MESOS_AUTHENTICATE", "1")] = .error 1 ∧
    start_framework [("MESOS_AUTHENTICATE", "1"), ("DEFAULT_PRINCIPAL", "alice"),
        ("DEFAULT_SECRET", "s3cret")] =
      .ok { checkpoint := false, credential := some ("alice", "s3cret") } ∧
    start_framework [] = .ok { checkpoint := false, credential := none } := by
  refine ⟨?_, ?_, ?_⟩
  · exact (start_framework_auth [("MESOS_AUTHENTICATE", "1")]).1 rfl rfl
  · exact (start_framework_auth [("MESOS_AUTHENTICATE", "1"),
      ("DEFAULT_PRINCIPAL", "alice"), ("DEFAULT_SECRET", "s3cret")]).2.2.1 rfl rfl rfl
  · exact (start_framework_auth []).2.2.2 rfl
